import Mathlib

set_option linter.unusedSectionVars false

/-!
Verification development for the goutils repository: a bounded TTL-LRU cache
with a stampede guard (src/cache/cachettl.go, src/cache/cachettl_any.go), a
reentrant counting key-set MulSet and a cancellation registry (the two
unnamed files).

Modelling conventions.
The Go maps are embedded as association lists; Go map insertion and deletion
become insertA and eraseA below.  Timestamps are the Int values produced by
time.Now().Unix().  Each public operation of the cache is embedded as a pure
state transformer; the fire-and-forget goroutines of Store (timer arming and
the recency update) are executed in their textual program order within the
same call, which is the behaviour of a sequential client that lets every
background task finish before issuing the next call.  Go's zero value for
the key type (the value of the uninitialised variable minKey in Store) is
modelled by the Inhabited default.  The uint32 counters of MulSet become
naturals reduced modulo 2 ^ 32 at each increment, exactly where the Go
arithmetic wraps.
-/

section AssocMap

variable {K : Type} {V : Type} [DecidableEq K]

/-- Lookup in an association list, the embedding of a Go map read. -/
def lookupA (k : K) : List (K × V) → Option V
  | [] => none
  | (k', v) :: rest => if k' = k then some v else lookupA k rest

/-- Removal of every binding of a key, the embedding of Go delete(m, k). -/
def eraseA (k : K) : List (K × V) → List (K × V)
  | [] => []
  | kv :: rest => if kv.1 = k then eraseA k rest else kv :: eraseA k rest

/-- Insertion that overwrites any previous binding, the embedding of
Go m[k] = v. -/
def insertA (k : K) (v : V) (l : List (K × V)) : List (K × V) :=
  (k, v) :: eraseA k l

@[simp] lemma lookupA_nil (k : K) : lookupA k ([] : List (K × V)) = none := rfl

lemma lookupA_eraseA_self (k : K) (l : List (K × V)) :
    lookupA k (eraseA k l) = none := by
  induction l with
  | nil => rfl
  | cons kv rest ih =>
    by_cases h : kv.1 = k
    · simpa [eraseA, h] using ih
    · simpa [eraseA, lookupA, h] using ih

lemma lookupA_eraseA_ne (k k' : K) (l : List (K × V)) (h : k' ≠ k) :
    lookupA k' (eraseA k l) = lookupA k' l := by
  induction l with
  | nil => rfl
  | cons kv rest ih =>
    by_cases hk : kv.1 = k
    · have hne : kv.1 ≠ k' := by
        intro hc
        exact h (hc ▸ hk)
      simp [eraseA, hk, lookupA, hne, Ne.symm h, ih]
    · simp [eraseA, hk, lookupA, ih]

@[simp] lemma lookupA_insertA_self (k : K) (v : V) (l : List (K × V)) :
    lookupA k (insertA k v l) = some v := by
  simp [insertA, lookupA]

lemma lookupA_insertA_ne (k k' : K) (v : V) (l : List (K × V)) (h : k' ≠ k) :
    lookupA k' (insertA k v l) = lookupA k' l := by
  have hne : k ≠ k' := fun hc => h hc.symm
  simp [insertA, lookupA, hne, lookupA_eraseA_ne k k' l h]

end AssocMap

section CacheModel

variable {K : Type} {V : Type} [DecidableEq K] [Inhabited K]

/-- Embedding of a Go *time.Timer as it is observable through the outTimer
registry: a creation identity (so that cancelling and recreating a timer is
distinguishable from resetting it) and its remaining duration. -/
structure GoTimer where
  id : Nat
  remaining : Int
deriving DecidableEq, Repr

/-- The configuration fields of Cache: maxCacheLen and outTime
(src/cache/cachettl.go lines 39 and 41). -/
structure Config where
  maxCacheLen : Nat
  outTime : Int
deriving DecidableEq, Repr

/-- NewCache clamps maxCacheLen below 3 up to 3 (src/cache/cachettl.go
lines 13 to 16). -/
def mkConfig (n : Nat) (t : Int) : Config :=
  ⟨if n < 3 then 3 else n, t⟩

/-- The mutable state of a Cache object: the value store m, the access
tracker lastTime, the timer registry outTimer, and a counter supplying
fresh timer identities. -/
structure CState (K V : Type) where
  m : List (K × V)
  lastTime : List (K × Int)
  outTimer : List (K × GoTimer)
  nextId : Nat
deriving DecidableEq

/-- The state just after NewCache: all three maps empty. -/
def initState (K V : Type) : CState K V := ⟨[], [], [], 0⟩

/-- The victim scan of Store (src/cache/cachettl.go lines 82 to 92):
minKey starts as the zero value of the key type and minTime as
time.Now().Unix(); a tracked key replaces it only when its recorded
timestamp is strictly smaller than the running minimum. -/
def scanMin (now : Int) (l : List (K × Int)) : K :=
  (l.foldl (fun acc kv => if kv.2 < acc.2 then kv else acc) (default, now)).1

/-- The needOut decision of Store: a victim is chosen only when the stored
key is untracked and the tracker has reached maxCacheLen; the victim is then
the result of the scan. -/
def evictVictim (cfg : Config) (key : K) (now : Int) (s : CState K V) : Option K :=
  if lookupA key s.lastTime = none ∧ cfg.maxCacheLen ≤ s.lastTime.length then
    some (scanMin now s.lastTime)
  else none

/-- The timer goroutine of Store (src/cache/cachettl.go lines 99 to 110):
an existing timer for the key is Reset to outTime / 2 keeping its identity;
otherwise time.AfterFunc(outTime, Delete key) installs a fresh timer. -/
def timerArm (cfg : Config) (key : K) (tm : List (K × GoTimer) × Nat) :
    List (K × GoTimer) × Nat :=
  match lookupA key tm.1 with
  | some t => (insertA key ⟨t.id, cfg.outTime / 2⟩ tm.1, tm.2)
  | none => (insertA key ⟨tm.2, cfg.outTime⟩ tm.1, tm.2 + 1)

/-- Delete (src/cache/cachettl.go lines 46 to 55): removes the key from the
value store and the access tracker; the timer registry is left untouched. -/
def deleteOp (k : K) (s : CState K V) : CState K V :=
  { s with m := eraseA k s.m, lastTime := eraseA k s.lastTime }

/-- Store (src/cache/cachettl.go lines 79 to 117), phase by phase: the
victim scan reads the pre-state tracker; the new value is admitted into m
before the victim is deleted (insert-before-evict); when outTime > 0 the
timer registry is armed; Delete(minKey) removes the victim from m and
lastTime; finally updateTime records the write time for the key.  The scan
and the timer arming touch disjoint fields, so composing the phases on
separate fields is extensionally the program order of the source. -/
def storeOp (cfg : Config) (key : K) (v : V) (now : Int) (s : CState K V) :
    CState K V :=
  let victim : Option K := evictVictim cfg key now s
  let tm : List (K × GoTimer) × Nat :=
    if 0 < cfg.outTime then timerArm cfg key (s.outTimer, s.nextId)
    else (s.outTimer, s.nextId)
  let m1 : List (K × V) := insertA key v s.m
  let m2 : List (K × V) :=
    match victim with
    | some mk => eraseA mk m1
    | none => m1
  let lt2 : List (K × Int) :=
    match victim with
    | some mk => eraseA mk s.lastTime
    | none => s.lastTime
  ⟨m2, insertA key now lt2, tm.1, tm.2⟩

/-- Load (src/cache/cachettl.go lines 119 to 127): a read of the value
store; on a hit the recency of the key is refreshed. -/
def loadOp (k : K) (now : Int) (s : CState K V) : Option V × CState K V :=
  match lookupA k s.m with
  | some v => (some v, { s with lastTime := insertA k now s.lastTime })
  | none => (none, s)

/-- Clear (src/cache/cachettl.go lines 57 to 69): empties the value store
and the access tracker; the timer registry is left untouched. -/
def clearOp (s : CState K V) : CState K V :=
  { s with m := [], lastTime := [] }

/-- The firing of an expiry timer: its callback is Delete of the captured
key (src/cache/cachettl.go line 105); the registry entry itself is never
removed by the source. -/
def fireOp (k : K) (s : CState K V) : CState K V := deleteOp k s

/-- The operation surface of the cache reachable-state semantics.  A
LoadOrStore call is, on the state, a Load followed by at most one Store, so
this surface generates every reachable state of the public API. -/
inductive CacheOp (K V : Type) where
  | store (k : K) (v : V) (now : Int)
  | load (k : K) (now : Int)
  | delete (k : K)
  | clear
  | fire (k : K)
deriving DecidableEq

/-- One step of the cache semantics. -/
def execOp (cfg : Config) (s : CState K V) : CacheOp K V → CState K V
  | .store k v now => storeOp cfg k v now s
  | .load k now => (loadOp k now s).2
  | .delete k => deleteOp k s
  | .clear => clearOp s
  | .fire k => fireOp k s

/-- Execution of a whole call sequence. -/
def execList (cfg : Config) (ops : List (CacheOp K V)) (s : CState K V) :
    CState K V :=
  ops.foldl (execOp cfg) s

@[simp] lemma execList_nil (cfg : Config) (s : CState K V) :
    execList cfg [] s = s := rfl

@[simp] lemma execList_cons (cfg : Config) (op : CacheOp K V)
    (ops : List (CacheOp K V)) (s : CState K V) :
    execList cfg (op :: ops) s = execList cfg ops (execOp cfg s op) := rfl

end CacheModel

/-- C1 scenario: capacity 3 (the NewCache minimum), no TTL, five distinct
nonzero keys stored sequentially within the same clock second. -/
def c1Ops : List (CacheOp Nat Nat) :=
  [.store 1 11 0, .store 2 12 0, .store 3 13 0, .store 4 14 0, .store 5 15 0]

/-- C1 (code_bug): the spec bounds the value store by capacity + 1 at every
observable point and by capacity once evictions complete, but after five
Store calls in the same clock second on a capacity-3 cache every key
survives: the victim scan compares each recorded timestamp strictly against
the current time, finds none smaller, leaves minKey at the key type's zero
value, and Delete(minKey) removes nothing.  All evictions have completed
here and the store holds 5 > 3 + 1 entries. -/
theorem c1_unbounded_growth :
    (execList (mkConfig 3 0) c1Ops (initState Nat Nat)).m.length = 5
      ∧ (mkConfig 3 0).maxCacheLen = 3 := by
  decide

/-- C2 scenario: capacity 3, no TTL, four distinct keys stored sequentially
in the same clock second. -/
def c2Ops : List (CacheOp Nat Nat) :=
  [.store 1 11 0, .store 2 12 0, .store 3 13 0, .store 4 14 0]

/-- C2 (code_bug): the spec says the fourth Store must evict the tracked
key with the smallest recorded last-access timestamp, leaving exactly 3
entries.  With all three recorded timestamps equal to the scan's current
time, the strict comparison never selects a tracked key, the victim is the
untracked zero-value key 0, and all four entries remain live. -/
theorem c2_no_tracked_victim :
    (execList (mkConfig 3 0) c2Ops (initState Nat Nat)).m.length = 4
      ∧ lookupA 1 (execList (mkConfig 3 0) c2Ops (initState Nat Nat)).m = some 11
      ∧ lookupA 2 (execList (mkConfig 3 0) c2Ops (initState Nat Nat)).m = some 12
      ∧ lookupA 3 (execList (mkConfig 3 0) c2Ops (initState Nat Nat)).m = some 13
      ∧ lookupA 4 (execList (mkConfig 3 0) c2Ops (initState Nat Nat)).m = some 14 := by
  decide

section TimerClaims

variable {K : Type} {V : Type} [DecidableEq K] [Inhabited K]

@[simp] lemma storeOp_outTimer (cfg : Config) (key : K) (v : V) (now : Int)
    (s : CState K V) :
    (storeOp cfg key v now s).outTimer =
      (if 0 < cfg.outTime then timerArm cfg key (s.outTimer, s.nextId)
       else (s.outTimer, s.nextId)).1 := rfl

@[simp] lemma storeOp_nextId (cfg : Config) (key : K) (v : V) (now : Int)
    (s : CState K V) :
    (storeOp cfg key v now s).nextId =
      (if 0 < cfg.outTime then timerArm cfg key (s.outTimer, s.nextId)
       else (s.outTimer, s.nextId)).2 := rfl

@[simp] lemma storeOp_m (cfg : Config) (key : K) (v : V) (now : Int)
    (s : CState K V) :
    (storeOp cfg key v now s).m =
      match evictVictim cfg key now s with
      | some mk => eraseA mk (insertA key v s.m)
      | none => insertA key v s.m := rfl

lemma loadOp_m (k : K) (now : Int) (s : CState K V) :
    ((loadOp k now s).2).m = s.m := by
  unfold loadOp
  cases lookupA k s.m <;> rfl

lemma loadOp_outTimer (k : K) (now : Int) (s : CState K V) :
    ((loadOp k now s).2).outTimer = s.outTimer := by
  unfold loadOp
  cases lookupA k s.m <;> rfl

/-- A single step can introduce a timer-registry entry for a key only
through a Store of that key while outTime is positive; every other
operation leaves the registry untouched. -/
lemma outTimer_step (cfg : Config) (op : CacheOp K V) (s : CState K V) (k : K)
    (h : lookupA k (execOp cfg s op).outTimer ≠ none) :
    lookupA k s.outTimer ≠ none
      ∨ (0 < cfg.outTime ∧ ∃ v now, op = CacheOp.store k v now) := by
  cases op with
  | store k' v now =>
    by_cases hp : 0 < cfg.outTime
    · by_cases hk : k = k'
      · exact Or.inr ⟨hp, v, now, by rw [hk]⟩
      · left
        simp only [execOp, storeOp_outTimer, if_pos hp] at h
        unfold timerArm at h
        cases hl : lookupA k' s.outTimer <;>
          simpa [hl, lookupA_insertA_ne k' k _ _ hk] using h
    · left
      simpa [execOp, storeOp_outTimer, if_neg hp] using h
  | load k' now =>
    left
    simpa [execOp, loadOp_outTimer] using h
  | delete k' =>
    left
    simpa [execOp, deleteOp] using h
  | clear =>
    left
    simpa [execOp, clearOp] using h
  | fire k' =>
    left
    simpa [execOp, fireOp, deleteOp] using h

/-- Along any call sequence, a timer-registry entry traces back either to
the initial state or to a Store of its key issued while outTime was
positive. -/
lemma timerOrigin (cfg : Config) (k : K) :
    ∀ (ops : List (CacheOp K V)) (s : CState K V),
      lookupA k (execList cfg ops s).outTimer ≠ none →
      lookupA k s.outTimer ≠ none
        ∨ (0 < cfg.outTime ∧ ∃ op ∈ ops, ∃ v now, op = CacheOp.store k v now) := by
  intro ops
  induction ops with
  | nil => exact fun s h => Or.inl h
  | cons op rest ih =>
    intro s h
    rcases ih (execOp cfg s op) (by simpa using h) with h1 | h2
    · rcases outTimer_step cfg op s k h1 with h3 | ⟨hp, v, now, rfl⟩
      · exact Or.inl h3
      · exact Or.inr ⟨hp, _, List.mem_cons_self _ _, v, now, rfl⟩
    · exact Or.inr ⟨h2.1, h2.2.choose, List.mem_cons_of_mem _ h2.2.choose_spec.1,
        h2.2.choose_spec.2⟩

/-- C4 state: a Store with positive TTL followed by a Delete of the same
key. -/
def c4State : CState Nat Nat :=
  execList (mkConfig 3 2) [.store 1 7 0, .delete 1] (initState Nat Nat)

/-- C4 counterexample: the claim says a key has a timer-registry entry only
if it is currently present in the value store.  After Store(1, 7) with
ttl = 2 and Delete(1), the source's Delete removes the key from the value
store and the access tracker but never touches outTimer, so key 1 still has
a registry entry while absent from the store. -/
theorem c4_counterexample :
    ¬ (∀ k : Nat, lookupA k c4State.outTimer ≠ none → lookupA k c4State.m ≠ none) := by
  intro h
  exact (h 1 (by decide)) (by decide)

/-- C4 (corrected): in every reachable state, a key has a timer-registry
entry only if outTime is positive and some earlier operation was a Store of
that key (a successful LoadOrStore performs such a Store).  The entry is
not removed by Delete; the timer's later firing re-enters Delete, which is
a no-op on an absent key. -/
theorem c4_timer_only_if_stored (cfg : Config) (ops : List (CacheOp Nat Nat))
    (k : Nat) (h : lookupA k (execList cfg ops (initState Nat Nat)).outTimer ≠ none) :
    0 < cfg.outTime ∧ ∃ op ∈ ops, ∃ v now, op = CacheOp.store k v now := by
  rcases timerOrigin cfg k ops (initState Nat Nat) h with h1 | h2
  · exact absurd rfl h1
  · exact h2

/-- Witness for C4: a concrete run in which the hypothesis holds. -/
theorem c4_witness :
    lookupA 1 ((execList (mkConfig 3 2) [.store 1 7 0] (initState Nat Nat)).outTimer) ≠ none
      ∧ (0 < (mkConfig 3 2).outTime
          ∧ ∃ op ∈ ([.store 1 7 0] : List (CacheOp Nat Nat)),
              ∃ v now, op = CacheOp.store 1 v now) :=
  ⟨by decide, c4_timer_only_if_stored (mkConfig 3 2) [.store 1 7 0] 1 (by decide)⟩

/-- C5 (confirmed): on Store with positive TTL, an existing timer for the
key keeps its identity (nothing is cancelled or recreated, and no fresh
timer identity is consumed) and has its remaining duration set to
outTime / 2; for a key with no timer, a fresh timer is armed for the full
outTime; and the firing of a timer for a key deletes that key's entry from
the value store. -/
theorem c5_rearm_halves (cfg : Config) (k : K) (v : V) (now : Int)
    (s : CState K V) (hp : 0 < cfg.outTime) :
    (∀ t : GoTimer, lookupA k s.outTimer = some t →
        lookupA k (storeOp cfg k v now s).outTimer = some ⟨t.id, cfg.outTime / 2⟩
          ∧ (storeOp cfg k v now s).nextId = s.nextId)
      ∧ (lookupA k s.outTimer = none →
          lookupA k (storeOp cfg k v now s).outTimer = some ⟨s.nextId, cfg.outTime⟩
            ∧ (storeOp cfg k v now s).nextId = s.nextId + 1)
      ∧ (∀ s2 : CState K V, lookupA k (fireOp k s2).m = none) := by
  refine ⟨?_, ?_, ?_⟩
  · intro t ht
    constructor
    · simp [storeOp_outTimer, if_pos hp, timerArm, ht]
    · simp [storeOp_nextId, if_pos hp, timerArm, ht]
  · intro ht
    constructor
    · simp [storeOp_outTimer, if_pos hp, timerArm, ht]
    · simp [storeOp_nextId, if_pos hp, timerArm, ht]
  · intro s2
    simp [fireOp, deleteOp, lookupA_eraseA_self]

/-- Witness for C5: a fresh timer armed at the full TTL on a concrete
state, and the halving reset on a second Store of the same key. -/
theorem c5_witness :
    0 < (mkConfig 3 10).outTime
      ∧ lookupA 1 (storeOp (mkConfig 3 10) 1 7 0 (initState Nat Nat)).outTimer
          = some ⟨0, 10⟩
      ∧ lookupA 1 (storeOp (mkConfig 3 10) 1 8 1
            (storeOp (mkConfig 3 10) 1 7 0 (initState Nat Nat))).outTimer
          = some ⟨0, 5⟩ :=
  ⟨by decide,
   ((c5_rearm_halves (mkConfig 3 10) 1 7 0 (initState Nat Nat) (by decide)).2.1 rfl).1,
   ((c5_rearm_halves (mkConfig 3 10) 1 8 1
      (storeOp (mkConfig 3 10) 1 7 0 (initState Nat Nat)) (by decide)).1 ⟨0, 10⟩
      (by decide)).1⟩

end TimerClaims

section StoreThenLoad

variable {K : Type} {V : Type} [DecidableEq K] [Inhabited K]

/-- The eviction victim, if any, that a given operation would select on a
given state: only a Store can evict, and it evicts the scan result of the
pre-state tracker. -/
def stepVictim (cfg : Config) (op : CacheOp K V) (s : CState K V) : Option K :=
  match op with
  | .store key _ now => evictVictim cfg key now s
  | _ => none

/-- Decidable trace predicate: along the execution of the given call
sequence from the given state, no step selects k as its eviction victim. -/
def noEvictOf (cfg : Config) (k : K) : List (CacheOp K V) → CState K V → Bool
  | [], _ => true
  | op :: rest, s =>
      decide (stepVictim cfg op s ≠ some k) && noEvictOf cfg k rest (execOp cfg s op)

/-- Operations that write, delete, expire or clear the given key: a Store
of the key (overwrite), a Delete of the key, a timer fire on the key
(expiry), or Clear. -/
def opTargetsKey (k : K) : CacheOp K V → Bool
  | .store k' _ _ => decide (k' = k)
  | .delete k' => decide (k' = k)
  | .fire k' => decide (k' = k)
  | .clear => true
  | .load _ _ => false

/-- An entry for k survives any call sequence that neither targets k nor
evicts k. -/
lemma lookupA_keep (cfg : Config) (k : K) (v : V) :
    ∀ (L : List (CacheOp K V)) (s : CState K V),
      (∀ op ∈ L, opTargetsKey k op = false) →
      noEvictOf cfg k L s = true →
      lookupA k s.m = some v →
      lookupA k (execList cfg L s).m = some v := by
  intro L
  induction L with
  | nil => exact fun s _ _ h => h
  | cons op rest ih =>
    intro s hT hE hk
    have hTop : opTargetsKey k op = false := hT op (List.mem_cons_self _ _)
    have hTrest : ∀ op' ∈ rest, opTargetsKey k op' = false :=
      fun op' h' => hT op' (List.mem_cons_of_mem _ h')
    rw [noEvictOf, Bool.and_eq_true] at hE
    have hV : stepVictim cfg op s ≠ some k := of_decide_eq_true hE.1
    refine ih (execOp cfg s op) hTrest hE.2 ?_
    cases op with
    | store k' v' now =>
      have hne : k ≠ k' := by
        intro hc
        simp [opTargetsKey, hc.symm] at hTop
      have hV' : evictVictim cfg k' now s ≠ some k := by
        simpa [stepVictim] using hV
      simp only [execOp, storeOp_m]
      cases hvic : evictVictim cfg k' now s with
      | none => rw [lookupA_insertA_ne k' k v' s.m hne, hk]
      | some mk =>
        have hmk : k ≠ mk := by
          intro hc
          exact hV' (by rw [hvic, hc])
        rw [lookupA_eraseA_ne mk k _ hmk, lookupA_insertA_ne k' k v' s.m hne, hk]
    | load k' now =>
      rw [execOp, loadOp_m, hk]
    | delete k' =>
      have hne : k ≠ k' := by
        intro hc
        simp [opTargetsKey, hc.symm] at hTop
      simpa [execOp, deleteOp, lookupA_eraseA_ne k' k s.m hne] using hk
    | clear => simp [opTargetsKey] at hTop
    | fire k' =>
      have hne : k ≠ k' := by
        intro hc
        simp [opTargetsKey, hc.symm] at hTop
      simpa [execOp, fireOp, deleteOp, lookupA_eraseA_ne k' k s.m hne] using hk

/-- C7 counterexample: the claim, as stated, requires only that no
Delete(k), eviction of k, or expiry of k intervenes between Store(k, v) and
Load(k); it does not exclude an intervening overwrite.  After Store(1, 7)
and an intervening Store(1, 8) — which deletes nothing, evicts nothing, and
expires nothing — Load(1) returns 8, not 7. -/
theorem c7_counterexample :
    ¬ (∀ (k v : Nat) (now now2 : Int) (L : List (CacheOp Nat Nat)) (s : CState Nat Nat),
        (∀ op ∈ L, op ≠ CacheOp.delete k) →
        (∀ op ∈ L, op ≠ CacheOp.fire k) →
        evictVictim (mkConfig 3 0) k now s ≠ some k →
        noEvictOf (mkConfig 3 0) k L (storeOp (mkConfig 3 0) k v now s) = true →
        (loadOp k now2 (execList (mkConfig 3 0) L
          (storeOp (mkConfig 3 0) k v now s))).1 = some v) := by
  intro h
  have := h 1 7 0 0 [.store 1 8 0] (initState Nat Nat)
    (by decide) (by decide) (by decide) (by decide)
  exact absurd this (by decide)

/-- C7 (corrected): after Store(k, v), if the Store itself did not select k
as its eviction victim (possible only for the key type's zero value), and no
subsequent operation overwrites k, deletes k, expires k, or clears the
cache, and no subsequent Store evicts k, then Load(k) returns (v, true). -/
theorem c7_store_then_load (cfg : Config) (k : K) (v : V) (now now2 : Int)
    (L : List (CacheOp K V)) (s : CState K V)
    (hT : ∀ op ∈ L, opTargetsKey k op = false)
    (hSelf : evictVictim cfg k now s ≠ some k)
    (hE : noEvictOf cfg k L (storeOp cfg k v now s) = true) :
    (loadOp k now2 (execList cfg L (storeOp cfg k v now s))).1 = some v := by
  have h0 : lookupA k (storeOp cfg k v now s).m = some v := by
    simp only [storeOp_m]
    cases hvic : evictVictim cfg k now s with
    | none => exact lookupA_insertA_self k v s.m
    | some mk =>
      have hmk : k ≠ mk := by
        intro hc
        exact hSelf (by rw [hvic, hc])
      rw [lookupA_eraseA_ne mk k _ hmk, lookupA_insertA_self k v s.m]
  have h1 := lookupA_keep cfg k v L (storeOp cfg k v now s) hT hE h0
  rw [loadOp, h1]

/-- Witness for C7: a concrete run with an intervening Store of another
key, a Load hit, and a Delete of another key. -/
theorem c7_witness :
    (∀ op ∈ ([.store 2 8 0, .load 1 3, .delete 2] : List (CacheOp Nat Nat)),
        opTargetsKey 1 op = false)
      ∧ (loadOp 1 4 (execList (mkConfig 3 0) [.store 2 8 0, .load 1 3, .delete 2]
          (storeOp (mkConfig 3 0) 1 7 0 (initState Nat Nat)))).1 = some 7 :=
  ⟨by decide,
   c7_store_then_load (mkConfig 3 0) 1 7 0 4 [.store 2 8 0, .load 1 3, .delete 2]
     (initState Nat Nat) (by decide) (by decide) (by decide)⟩

end StoreThenLoad

section LoadOrStoreClaims

variable {K : Type} {V : Type} {E : Type} [DecidableEq K] [Inhabited K]

/-- LoadOrStore (src/cache/cachettl.go lines 130 to 143) for a lone caller:
a hit returns the stored value with no error; on a miss the singleflight
Do call runs the supplied loader directly, and only a nil-error result is
written back via Store.  The loader's outcome is passed as data, standing
for the single execution the guard allows. -/
def loadOrStoreOp (cfg : Config) (k : K) (loader : Except E V) (now : Int)
    (s : CState K V) : Except E V × CState K V :=
  match lookupA k s.m with
  | some v => (.ok v, { s with lastTime := insertA k now s.lastTime })
  | none =>
    match loader with
    | .ok v => (.ok v, storeOp cfg k v now s)
    | .error e => (.error e, s)

/-- C6 (confirmed, sequential content): when LoadOrStore misses and the
loader fails, the loader's error is returned verbatim, the cache state is
completely unchanged — in particular no entry for the key is added — and a
subsequent LoadOrStore for the key reaches the loader again and returns the
fresh loader's result. -/
theorem c6_loader_error (cfg : Config) (k : K) (e : E) (now now2 : Int)
    (s : CState K V) (hmiss : lookupA k s.m = none) :
    (loadOrStoreOp cfg k (.error e) now s).1 = .error e
      ∧ (loadOrStoreOp cfg k (.error e) now s).2 = s
      ∧ (∀ v : V, (loadOrStoreOp cfg k (Except.ok v : Except E V) now2 s).1
            = Except.ok v) := by
  refine ⟨?_, ?_, ?_⟩
  · rw [loadOrStoreOp, hmiss]
  · rw [loadOrStoreOp, hmiss]
  · intro v
    rw [loadOrStoreOp, hmiss]

/-- Witness for C6: a failing loader against the empty cache. -/
theorem c6_witness :
    lookupA 1 (initState Nat Nat).m = none
      ∧ (loadOrStoreOp (mkConfig 3 0) 1 (.error 99) 0 (initState Nat Nat)).1
          = .error 99
      ∧ (loadOrStoreOp (mkConfig 3 0) 1 (.error 99) 0 (initState Nat Nat)).2
          = initState Nat Nat :=
  ⟨rfl,
   (c6_loader_error (mkConfig 3 0) 1 (99 : Nat) 0 1 (initState Nat Nat) rfl).1,
   (c6_loader_error (mkConfig 3 0) 1 (99 : Nat) 0 1 (initState Nat Nat) rfl).2.1⟩

end LoadOrStoreClaims

section KeyRendering

/-- Models the Go standard library fmt.Sprint applied to a key of type
string, the rendering LoadOrStore hands to singleflight.Group.Do
(src/cache/cachettl.go line 135): Sprint of a string is the string
itself. -/
def goSprintString (s : String) : String := s

/-- Models the Go standard library fmt.Sprint applied to a comparable key
type that is a struct of two string fields, per fmt's documented default
formatting: the field values separated by a single space between braces. -/
def goSprintStringPair (p : String × String) : String :=
  "\x7b" ++ p.1 ++ " " ++ p.2 ++ "\x7d"

/-- C8 counterexample: the claim asserts that the rendering is injective
for every key type of the cache.  For a struct key with two string fields,
the two unequal keys (a b, c) and (a, b c) both render as the same string,
so distinct keys of such a cache would share one stampede-guard slot. -/
theorem c8_counterexample :
    goSprintStringPair ("a b", "c") = goSprintStringPair ("a", "b c")
      ∧ ("a b", "c") ≠ (("a", "b c") : String × String) := by
  constructor
  · rfl
  · decide

/-- C8 (corrected): equal keys always render identically, and for the key
type string the rendering is injective; injectivity for an arbitrary
comparable key type is an obligation on the chosen key type rather than a
property of the rendering, since composite key types collide. -/
theorem c8_string_injective :
    ∀ s t : String, goSprintString s = goSprintString t ↔ s = t :=
  fun _ _ => Iff.rfl

end KeyRendering

section MulSetModel

variable {K : Type} [DecidableEq K]

/-- The internal map of MulSet (src/unnamed/part_000 lines 10 to 13): keys
to uint32 counters.  A Go map read yields the value or reports absence, so
the state is a partial function. -/
abbrev MSet (K : Type) := K → Option Nat

/-- The state produced by NewMulSet: an empty map. -/
def msEmpty (K : Type) : MSet K := fun _ => none

/-- MulSet.Add (src/unnamed/part_000 lines 21 to 29): the counter, taken as
0 when the key is absent, is incremented; the uint32 increment wraps modulo
2 ^ 32. -/
def msAdd (k : K) (s : MSet K) : MSet K :=
  fun k' => if k' = k then some ((((s k).getD 0) + 1) % 2 ^ 32) else s k'

/-- MulSet.Contains (src/unnamed/part_000 lines 31 to 36): map
membership. -/
def msContains (k : K) (s : MSet K) : Bool := (s k).isSome

/-- MulSet.Remove (src/unnamed/part_000 lines 38 to 48): a present counter
of at most 1 deletes the key, a larger counter is decremented, an absent
key is left alone. -/
def msRemove (k : K) (s : MSet K) : MSet K :=
  fun k' =>
    if k' = k then
      match s k with
      | none => none
      | some v => if v ≤ 1 then none else some (v - 1)
    else s k'

/-- The operation surface of MulSet. -/
inductive MSOp (K : Type) where
  | add (k : K)
  | remove (k : K)

/-- One step of the MulSet semantics. -/
def msExecOp (s : MSet K) : MSOp K → MSet K
  | .add k => msAdd k s
  | .remove k => msRemove k s

/-- Execution of a whole call sequence. -/
def msExec (ops : List (MSOp K)) (s : MSet K) : MSet K := ops.foldl msExecOp s

/-- States reachable from the empty MulSet. -/
def MSReachable (s : MSet K) : Prop := ∃ ops : List (MSOp K), s = msExec ops (msEmpty K)

/-- The number of Add calls in a sequence. -/
def countAdds : List (MSOp K) → Nat
  | [] => 0
  | .add _ :: rest => countAdds rest + 1
  | .remove _ :: rest => countAdds rest

@[simp] lemma countAdds_nil : countAdds ([] : List (MSOp K)) = 0 := rfl

@[simp] lemma countAdds_add (k : K) (rest : List (MSOp K)) :
    countAdds (MSOp.add k :: rest) = countAdds rest + 1 := rfl

@[simp] lemma countAdds_remove (k : K) (rest : List (MSOp K)) :
    countAdds (MSOp.remove k :: rest) = countAdds rest := rfl

lemma msAdd_self (k : K) (s : MSet K) :
    msAdd k s k = some ((((s k).getD 0) + 1) % 2 ^ 32) := by
  simp [msAdd]

lemma msAdd_iterate (k : K) :
    ∀ (n : Nat) (s : MSet K),
      ((msAdd k)^[n + 1] s) k = some ((((s k).getD 0) + (n + 1)) % 2 ^ 32) := by
  intro n
  induction n with
  | zero =>
    intro s
    simpa using msAdd_self k s
  | succ m ih =>
    intro s
    rw [Function.iterate_succ_apply, ih (msAdd k s), msAdd_self]
    simp only [Option.getD_some]
    rw [Nat.mod_add_mod]
    congr 2
    omega

lemma msExec_replicate (k : K) :
    ∀ (n : Nat) (s : MSet K),
      msExec (List.replicate n (MSOp.add k)) s = (msAdd k)^[n] s := by
  intro n
  induction n with
  | zero => intro s; rfl
  | succ m ih =>
    intro s
    rw [List.replicate_succ]
    show msExec (List.replicate m (MSOp.add k)) (msAdd k s) = _
    rw [ih (msAdd k s), Function.iterate_succ_apply]

/-- The MulSet state after 2 ^ 32 Add calls for key 0: the uint32 counter
has wrapped around to 0 while the key is still present. -/
def msWrapState : MSet Nat := (msAdd 0)^[2 ^ 32] (msEmpty Nat)

lemma msWrapState_lookup : msWrapState 0 = some 0 := by
  show ((msAdd 0)^[2 ^ 32] (msEmpty Nat)) 0 = some 0
  have h : (2 : Nat) ^ 32 = (2 ^ 32 - 1) + 1 := by norm_num
  rw [h, msAdd_iterate 0 (2 ^ 32 - 1) (msEmpty Nat)]
  norm_num [msEmpty]

lemma msWrapState_reachable : MSReachable msWrapState :=
  ⟨List.replicate (2 ^ 32) (MSOp.add 0),
   (msExec_replicate 0 (2 ^ 32) (msEmpty Nat)).symm⟩

lemma msRemove_at_none (k : K) (s : MSet K) (h : s k = none) :
    msRemove k s k = none := by
  simp [msRemove, h]

lemma msRemove_at_le_one (k : K) (s : MSet K) (v : Nat) (h : s k = some v)
    (h1 : v ≤ 1) : msRemove k s k = none := by
  simp [msRemove, h, h1]

lemma msRemove_at_ge_two (k : K) (s : MSet K) (v : Nat) (h : s k = some v)
    (h2 : ¬ v ≤ 1) : msRemove k s k = some (v - 1) := by
  simp [msRemove, h, h2]

lemma msRemove_other (k k' : K) (s : MSet K) (h : k' ≠ k) :
    msRemove k s k' = s k' := by
  simp [msRemove, h]

lemma msRemove_absent_iterate (k : K) :
    ∀ (n : Nat) (s : MSet K), s k = none → ((msRemove k)^[n] s) k = none := by
  intro n
  induction n with
  | zero => exact fun s h => h
  | succ m ih =>
    intro s h
    rw [Function.iterate_succ_apply]
    exact ih (msRemove k s) (by simp [msRemove, h])

lemma msRemove_drain (k : K) :
    ∀ (n : Nat), 1 ≤ n → ∀ (s : MSet K) (v : Nat), s k = some v → v ≤ n →
      ((msRemove k)^[n] s) k = none := by
  intro n
  induction n with
  | zero => intro h; exact absurd h (by omega)
  | succ m ih =>
    intro _ s v hv hle
    rw [Function.iterate_succ_apply]
    by_cases h1 : v ≤ 1
    · exact msRemove_absent_iterate k m (msRemove k s) (by simp [msRemove, hv, h1])
    · have h2 : msRemove k s k = some (v - 1) := by simp [msRemove, hv, h1]
      exact ih (by omega) (msRemove k s) (v - 1) h2 (by omega)

end MulSetModel

/-- C10 counterexample: the claim says that in every reachable MulSet state
every present key has a counter of at least 1.  After 2 ^ 32 Add calls for
key 0 the wrapping uint32 increment has brought the recorded counter back
to 0 while the key is still present in the map. -/
theorem c10_counterexample :
    ¬ (∀ s : MSet Nat, MSReachable s → ∀ k v, s k = some v → 1 ≤ v) := by
  intro h
  have := h msWrapState msWrapState_reachable 0 0 msWrapState_lookup
  omega

/-- C9 counterexample: the claim's Remove clause says the key is deleted
exactly when the decremented counter reaches zero; the uint32 decrement of
a counter v is (v + 2 ^ 32 - 1) % 2 ^ 32.  In the reachable state whose
recorded counter for key 0 is 0, that decrement is 2 ^ 32 - 1, which is not
zero, yet the source's Remove (whose guard is v <= 1) deletes the key. -/
theorem c9_counterexample :
    ¬ (∀ s : MSet Nat, MSReachable s → ∀ k v, s k = some v →
          ((v + 2 ^ 32 - 1) % 2 ^ 32 = 0 → msRemove k s k = none)
            ∧ ((v + 2 ^ 32 - 1) % 2 ^ 32 ≠ 0 →
                msRemove k s k = some ((v + 2 ^ 32 - 1) % 2 ^ 32))) := by
  intro h
  have h2 := (h msWrapState msWrapState_reachable 0 0 msWrapState_lookup).2
  have h3 : msRemove 0 msWrapState 0 = none := by
    simp [msRemove, msWrapState_lookup]
  have h4 := h2 (by norm_num)
  rw [h3] at h4
  exact Option.noConfusion h4

/-- C9 (corrected): Add increments the uint32 counter, creating it at 1
when the key is absent; Remove deletes the key exactly when the stored
counter is at most 1 before the call — this covers the claimed
reaches-zero case (a counter of 1) and additionally the wrapped counter of
0 — decrements larger counters, and is a no-op on an absent key; Contains
is map membership; and n Adds followed by n Removes of a key absent from
the start leave Contains false, for every n. -/
theorem c9_mulset_behaviour {K : Type} [DecidableEq K] (k : K) :
    (∀ s : MSet K, s k = none → msAdd k s k = some 1)
      ∧ (∀ (s : MSet K) (v : Nat), s k = some v →
          msAdd k s k = some ((v + 1) % 2 ^ 32))
      ∧ (∀ (s : MSet K) (v : Nat), s k = some v → v ≤ 1 → msRemove k s k = none)
      ∧ (∀ (s : MSet K) (v : Nat), s k = some v → 2 ≤ v →
          msRemove k s k = some (v - 1))
      ∧ (∀ s : MSet K, s k = none → msRemove k s = s)
      ∧ (∀ s : MSet K, msContains k s = true ↔ s k ≠ none)
      ∧ (∀ (n : Nat) (s : MSet K), s k = none →
          msContains k ((msRemove k)^[n] ((msAdd k)^[n] s)) = false) := by
  refine ⟨?_, ?_, ?_, ?_, ?_, ?_, ?_⟩
  · intro s h
    simp [msAdd, h, Nat.one_mod_eq_one.mpr]
  · intro s v h
    simp [msAdd, h]
  · intro s v h h1
    simp [msRemove, h, h1]
  · intro s v h h2
    have h1 : ¬ (v ≤ 1) := by omega
    simp [msRemove, h, h1]
  · intro s h
    funext k'
    by_cases hk : k' = k
    · simp [msRemove, hk, h]
    · simp [msRemove, hk]
  · intro s
    simp [msContains, Option.isSome_iff_ne_none]
  · intro n s h
    cases n with
    | zero => simp [msContains, h]
    | succ m =>
      have ha : ((msAdd k)^[m + 1] s) k = some ((m + 1) % 2 ^ 32) := by
        simpa [h] using msAdd_iterate k m s
      have hd := msRemove_drain k (m + 1) (by omega) ((msAdd k)^[m + 1] s)
        ((m + 1) % 2 ^ 32) ha (Nat.mod_le (m + 1) (2 ^ 32))
      unfold msContains
      rw [hd]
      rfl

/-- Witness for C9: creation at 1 on the empty set, and three Adds
followed by three Removes leaving the key absent. -/
theorem c9_witness :
    msAdd 0 (msEmpty Nat) 0 = some 1
      ∧ msContains 0 ((msRemove 0)^[3] ((msAdd 0)^[3] (msEmpty Nat))) = false :=
  ⟨(c9_mulset_behaviour 0).1 (msEmpty Nat) rfl,
   (c9_mulset_behaviour 0).2.2.2.2.2.2 3 (msEmpty Nat) rfl⟩

/-- Every counter in a state satisfying a bound stays positive and bounded
by the old bound plus the Adds executed, as long as the total cannot wrap
the uint32 increment. -/
lemma msInv {K : Type} [DecidableEq K] :
    ∀ (ops : List (MSOp K)) (b : Nat) (s : MSet K),
      (∀ k v, s k = some v → 1 ≤ v ∧ v ≤ b) →
      b + countAdds ops < 2 ^ 32 →
      ∀ k v, msExec ops s k = some v → 1 ≤ v ∧ v ≤ b + countAdds ops := by
  intro ops
  induction ops with
  | nil =>
    intro b s hInv _ k v hk
    simpa using hInv k v hk
  | cons op rest ih =>
    intro b s hInv hlt
    cases op with
    | add k0 =>
      have hstep : ∀ k v, msAdd k0 s k = some v → 1 ≤ v ∧ v ≤ b + 1 := by
        intro k v hk
        by_cases hkk : k = k0
        · have hc : ((s k0).getD 0) ≤ b := by
            cases hs : s k0 with
            | none => simp
            | some w => simpa using (hInv k0 w hs).2
          have hlt2 : ((s k0).getD 0) + 1 < 2 ^ 32 := by
            have := hlt
            simp only [countAdds_add] at this
            omega
          rw [msAdd, if_pos hkk, Nat.mod_eq_of_lt hlt2] at hk
          cases hk
          omega
        · rw [msAdd, if_neg hkk] at hk
          have := hInv k v hk
          omega
      have hrec := ih (b + 1) (msAdd k0 s) hstep
        (by simp only [countAdds_add] at hlt ⊢; omega)
      intro k v hk
      have hres := hrec k v hk
      simp only [countAdds_add]
      omega
    | remove k0 =>
      have hstep : ∀ k v, msRemove k0 s k = some v → 1 ≤ v ∧ v ≤ b := by
        intro k v hk
        by_cases hkk : k = k0
        · subst hkk
          cases hs : s k with
          | none =>
            rw [msRemove_at_none k s hs] at hk
            exact Option.noConfusion hk
          | some w =>
            by_cases hw : w ≤ 1
            · rw [msRemove_at_le_one k s w hs hw] at hk
              exact Option.noConfusion hk
            · rw [msRemove_at_ge_two k s w hs hw] at hk
              cases hk
              have := (hInv k w hs).2
              omega
        · rw [msRemove_other k0 k s hkk] at hk
          exact hInv k v hk
      have hrec := ih b (msRemove k0 s) hstep
        (by simpa using hlt)
      intro k v hk
      simpa using hrec k v hk

/-- C10 (corrected): in every state reached from the empty MulSet by a
sequence containing fewer than 2 ^ 32 Add calls — so that the wrapping
uint32 increment never actually wraps — every present key has a counter of
at least 1. -/
theorem c10_positive_counts {K : Type} [DecidableEq K]
    (ops : List (MSOp K)) (h : countAdds ops < 2 ^ 32)
    (k : K) (v : Nat) (hv : msExec ops (msEmpty K) k = some v) : 1 ≤ v :=
  (msInv ops 0 (msEmpty K)
    (by intro k' v' h'; exact Option.noConfusion h')
    (by simpa using h) k v hv).1

/-- Witness for C10: two Adds of the same key on the empty set. -/
theorem c10_witness :
    countAdds ([.add 5, .add 5] : List (MSOp Nat)) < 2 ^ 32 ∧ 1 ≤ 2 :=
  ⟨by norm_num,
   c10_positive_counts ([.add 5, .add 5] : List (MSOp Nat)) (by norm_num) 5 2
     (by decide)⟩
